import Mathlib

/-!
Verification of the go-zcashaddress repository: a shallow embedding in Lean 4
of its CompactSize (varint) codec, its Unified Address TLV assembler and
validator, and its top-level address dispatcher, together with theorems
settling the specification claims about them.

Bytes are modelled as `Nat` values (each < 256 where produced by the code),
byte slices as `List Nat`, Go strings (used only as human-readable prefixes)
as their byte lists, and Go `(value, error)` returns as `Except`/pairs with
an `Option` error component.  The external collaborators (bech32/bech32m
text codec and the f4jumble diffusion permutation) are out of scope per the
specification; the Unified Address functions are therefore embedded at the
byte-body level, i.e. `EncodeUnified` up to the bytes it hands to f4jumble
and `DecodeUnified` from the bytes f4jumble-inverse returns.
-/

namespace ZcashAddr

/-! ## CompactSize codec (internal/compactsize/compactsize.go) -/

/-- Errors produced by the compactsize codec: the range error
("number exceeds maximum compact size") and the truncation error
("invalid compact size encoding"). -/
inductive CSErr where
  | range
  | truncated
deriving DecidableEq, Repr

/-- The fixed ceiling `maxCompactSize = 0x2000000` from compactsize.go. -/
def maxCompactSize : Nat := 0x2000000

/-- Little-endian byte list of `n`, `width` bytes long (the effect of Go's
`binary.Write(buf, binary.LittleEndian, ...)` at the given width). -/
def toLE (width n : Nat) : List Nat :=
  match width with
  | 0 => []
  | w + 1 => (n % 256) :: toLE w (n / 256)

/-- Value of a little-endian byte list (Go's `binary.LittleEndian.UintNN`). -/
def fromLE : List Nat → Nat
  | [] => 0
  | b :: bs => b + 256 * fromLE bs

/-- The width-selection part of `WriteCompactSize` (the if/else chain over
253, `math.MaxUint16`, `math.MaxUint32`). -/
def writeCompactSizeRaw (n : Nat) : List Nat :=
  if n < 253 then [n]
  else if n ≤ 65535 then 253 :: toLE 2 n
  else if n ≤ 4294967295 then 254 :: toLE 4 n
  else 255 :: toLE 8 n

/-- Embedding of `WriteCompactSize` from compactsize.go: range check first,
then the width-selected little-endian serialization. -/
def WriteCompactSize (n : Nat) (allowOutOfRange : Bool) : Except CSErr (List Nat) :=
  if allowOutOfRange = false ∧ n > maxCompactSize then .error .range
  else .ok (writeCompactSizeRaw n)

/-- The marker-byte switch of `ParseCompactSize`: reads one value together
with the unconsumed remainder, or `none` when too few bytes remain
(Go's "invalid compact size encoding" cases). -/
def readRawCompactSize (rest : List Nat) : Option (Nat × List Nat) :=
  match rest with
  | [] => none
  | b :: tail =>
    if b = 253 then
      if tail.length < 2 then none else some (fromLE (tail.take 2), tail.drop 2)
    else if b = 254 then
      if tail.length < 4 then none else some (fromLE (tail.take 4), tail.drop 4)
    else if b = 255 then
      if tail.length < 8 then none else some (fromLE (tail.take 8), tail.drop 8)
    else some (b, tail)

/-- Embedding of `ParseCompactSize` from compactsize.go: the switch on the
marker byte, then the range check on the decoded value. -/
def ParseCompactSize (rest : List Nat) (allowOutOfRange : Bool) :
    Except CSErr (Nat × List Nat) :=
  match readRawCompactSize rest with
  | none => .error .truncated
  | some (n, r) =>
    if allowOutOfRange = false ∧ n > maxCompactSize then .error .range
    else .ok (n, r)

/-! ### Basic lemmas about the compactsize codec -/

theorem toLE_length (width n : Nat) : (toLE width n).length = width := by
  induction width generalizing n with
  | zero => rfl
  | succ w ih => simp [toLE, ih]

theorem fromLE_toLE (width n : Nat) : fromLE (toLE width n) = n % 256 ^ width := by
  induction width generalizing n with
  | zero => simp [toLE, fromLE, Nat.mod_one]
  | succ w ih =>
    have h : (256 : Nat) ^ (w + 1) = 256 * 256 ^ w := by ring
    simp only [toLE, fromLE, ih, h, Nat.mod_mul]

theorem fromLE_toLE_of_lt {width n : Nat} (h : n < 256 ^ width) :
    fromLE (toLE width n) = n := by
  rw [fromLE_toLE, Nat.mod_eq_of_lt h]

/-- Parsing the raw serialization of `n < 2^64` followed by any further
bytes recovers `n` and leaves exactly those further bytes. -/
theorem readRaw_writeRaw (n : Nat) (hn : n < 18446744073709551616) (extra : List Nat) :
    readRawCompactSize (writeCompactSizeRaw n ++ extra) = some (n, extra) := by
  unfold writeCompactSizeRaw
  by_cases h1 : n < 253
  · have hb1 : ¬ (n = 253) := by omega
    have hb2 : ¬ (n = 254) := by omega
    have hb3 : ¬ (n = 255) := by omega
    simp [h1, readRawCompactSize, hb1, hb2, hb3]
  · by_cases h2 : n ≤ 65535
    · have hlen : (toLE 2 n ++ extra).length = 2 + extra.length := by
        simp [toLE_length]
      have htake : (toLE 2 n ++ extra).take 2 = toLE 2 n := by
        have := List.take_left (toLE 2 n) extra
        rwa [toLE_length] at this
      have hdrop : (toLE 2 n ++ extra).drop 2 = extra := by
        have := List.drop_left (toLE 2 n) extra
        rwa [toLE_length] at this
      have hv : fromLE (toLE 2 n) = n := fromLE_toLE_of_lt (by norm_num; omega)
      simp [h1, h2, readRawCompactSize, hlen, htake, hdrop, hv]
    · by_cases h3 : n ≤ 4294967295
      · have htake : (toLE 4 n ++ extra).take 4 = toLE 4 n := by
          have := List.take_left (toLE 4 n) extra
          rwa [toLE_length] at this
        have hdrop : (toLE 4 n ++ extra).drop 4 = extra := by
          have := List.drop_left (toLE 4 n) extra
          rwa [toLE_length] at this
        have hlen : (toLE 4 n ++ extra).length = 4 + extra.length := by
          simp [toLE_length]
        have hv : fromLE (toLE 4 n) = n := fromLE_toLE_of_lt (by norm_num; omega)
        simp [h1, h2, h3, readRawCompactSize, hlen, htake, hdrop, hv]
      · have htake : (toLE 8 n ++ extra).take 8 = toLE 8 n := by
          have := List.take_left (toLE 8 n) extra
          rwa [toLE_length] at this
        have hdrop : (toLE 8 n ++ extra).drop 8 = extra := by
          have := List.drop_left (toLE 8 n) extra
          rwa [toLE_length] at this
        have hlen : (toLE 8 n ++ extra).length = 8 + extra.length := by
          simp [toLE_length]
        have hv : fromLE (toLE 8 n) = n := fromLE_toLE_of_lt (by norm_num; omega)
        simp [h1, h2, h3, readRawCompactSize, hlen, htake, hdrop, hv]

/-- With the extended range allowed, parsing a raw serialization plus a
suffix succeeds and returns the value and the suffix. -/
theorem parse_writeRaw (n : Nat) (hn : n < 18446744073709551616) (extra : List Nat) :
    ParseCompactSize (writeCompactSizeRaw n ++ extra) true = .ok (n, extra) := by
  simp [ParseCompactSize, readRaw_writeRaw n hn extra]

/-- Raw reads always consume at least one byte. -/
theorem readRaw_consumes {l r : List Nat} {n : Nat}
    (h : readRawCompactSize l = some (n, r)) : r.length < l.length := by
  match l with
  | [] => simp [readRawCompactSize] at h
  | b :: tail =>
    by_cases h1 : b = 253
    · by_cases hl : tail.length < 2
      · simp [readRawCompactSize, h1, hl] at h
      · simp [readRawCompactSize, h1, hl] at h
        have := h.2
        subst this
        simp [List.length_drop]
        omega
    · by_cases h2 : b = 254
      · by_cases hl : tail.length < 4
        · simp [readRawCompactSize, h1, h2, hl] at h
        · simp [readRawCompactSize, h1, h2, hl] at h
          have := h.2
          subst this
          simp [List.length_drop]
          omega
      · by_cases h3 : b = 255
        · by_cases hl : tail.length < 8
          · simp [readRawCompactSize, h1, h2, h3, hl] at h
          · simp [readRawCompactSize, h1, h2, h3, hl] at h
            have := h.2
            subst this
            simp [List.length_drop]
            omega
        · simp [readRawCompactSize, h1, h2, h3] at h
          have := h.2
          subst this
          simp

/-- Successful parses always consume at least one byte. -/
theorem parse_consumes {l r : List Nat} {n : Nat} {allow : Bool}
    (h : ParseCompactSize l allow = .ok (n, r)) : r.length < l.length := by
  unfold ParseCompactSize at h
  match hr : readRawCompactSize l with
  | none => rw [hr] at h; exact absurd h (by simp)
  | some (m, s) =>
    rw [hr] at h
    by_cases hc : allow = false ∧ m > maxCompactSize
    · simp [hc] at h
    · simp [hc] at h
      obtain ⟨h1, h2⟩ := h
      subst h2
      exact readRaw_consumes hr

/-! ## Unified Address codec (unifiedaddress package) -/

/-- Typecodes from the unifiedaddress package; `ItemType` is a Go `uint64`,
modelled as `Nat`. -/
def P2PKHItem : Nat := 0x00
def P2SHItem : Nat := 0x01
def SaplingItem : Nat := 0x02
def OrchardItem : Nat := 0x03

/-- Sentinel used by `DecodeUnified` to seed the ordering check. -/
def NoPreviousItem : Nat := 0xffffffff

/-- Embedding of `getExpectedLength`. -/
def getExpectedLength (itemType : Nat) : Nat :=
  if itemType = P2PKHItem then 20
  else if itemType = P2SHItem then 20
  else if itemType = SaplingItem then 43
  else if itemType = OrchardItem then 43
  else 0

/-- Embedding of `getItemName`. -/
def getItemName (itemType : Nat) : String :=
  if itemType = P2PKHItem ∨ itemType = P2SHItem then "transparent"
  else if itemType = SaplingItem then "sapling"
  else if itemType = OrchardItem then "orchard"
  else "unknown"

/-- Embedding of `tlv`: typecode, then payload length, then payload, each
size written with the extended range allowed.  (Go's second error branch
returns the first, necessarily nil, error object; since
`WriteCompactSize(_, true)` never fails, both error branches are dead.) -/
def tlv (typecode : Nat) (value : List Nat) : Except CSErr (List Nat) := do
  let start ← WriteCompactSize typecode true
  let st ← WriteCompactSize value.length true
  return start ++ st ++ value

theorem tlv_eq (typecode : Nat) (value : List Nat) :
    tlv typecode value =
      .ok (writeCompactSizeRaw typecode ++ writeCompactSizeRaw value.length ++ value) := by
  simp [tlv, WriteCompactSize, bind, Except.bind, pure, Except.pure]

/-- Embedding of `padding`: the human-readable prefix bytes, zero-padded on
the right to 16 bytes (never truncated when longer than 16). -/
def padding (hrp : List Nat) : List Nat :=
  hrp ++ List.replicate (16 - hrp.length) 0

/-- Embedding of the `UnifiedAddress` struct; the Go fixed-size arrays are
lists (their lengths are enforced where the code enforces them), and the
Go map `Unknown map[uint64][]byte` is an association list whose order is
the order in which a Go `range` over the map would visit its entries (Go
leaves that order unspecified). -/
structure UnifiedAddress where
  P2pkh : Option (List Nat)
  P2sh : Option (List Nat)
  Sapling : Option (List Nat)
  Orchard : Option (List Nat)
  Unknown : List (Nat × List Nat)
deriving DecidableEq, Repr

/-- Errors raised while decoding individual TLV items inside
`DecodeUnified`. -/
inductive ItemErr where
  | typeErr (e : CSErr)
  | lenErr (e : CSErr)
  | wrongLength (typecode : Nat)
  | insufficient (typecode : Nat)
  | duplicate (name : String)
  | outOfOrder
deriving DecidableEq, Repr

/-- Errors of the byte-level `DecodeUnified` body. -/
inductive DecErr where
  | padErr
  | item (e : ItemErr)
deriving DecidableEq, Repr

/-- Errors of the byte-level `EncodeUnified` body. -/
inductive EncErr where
  | conflict
  | cs (e : CSErr)
deriving DecidableEq, Repr

/-- Encoding of the optional known receivers of `EncodeUnified` (each of
the four `if addr.X != nil` blocks). -/
def optEnc (typecode : Nat) : Option (List Nat) → Except CSErr (List Nat)
  | none => .ok []
  | some value => tlv typecode value

/-- Encoding of the `for itemType, item := range addr.Unknown` loop of
`EncodeUnified`: items with non-empty payloads are emitted in iteration
order; zero-length payloads are skipped. -/
def unknownEnc : List (Nat × List Nat) → Except CSErr (List Nat)
  | [] => .ok []
  | (typecode, item) :: rest =>
    if item.length > 0 then do
      let bs ← tlv typecode item
      let r ← unknownEnc rest
      return bs ++ r
    else unknownEnc rest

/-- Embedding of `EncodeUnified` from the unifiedaddress package up to the
bytes handed to the external f4jumble transform (which, together with the
bech32m text layer, is an out-of-scope invertible collaborator): the
conflict check, the four known items in fixed order, the unknown items in
map-iteration order, and the trailing padding block. -/
def EncodeUnifiedBody (addr : UnifiedAddress) (hrp : List Nat) :
    Except EncErr (List Nat) :=
  if addr.P2pkh.isSome ∧ addr.P2sh.isSome then .error .conflict
  else
    match (do
      let a ← optEnc P2PKHItem addr.P2pkh
      let b ← optEnc P2SHItem addr.P2sh
      let c ← optEnc SaplingItem addr.Sapling
      let d ← optEnc OrchardItem addr.Orchard
      let e ← unknownEnc addr.Unknown
      return a ++ b ++ c ++ d ++ e : Except CSErr (List Nat)) with
    | .error e => .error (.cs e)
    | .ok body => .ok (body ++ padding hrp)

/-- One iteration of the item loop of `DecodeUnified` up to the slicing of
the payload: typecode, declared length, known-typecode length check,
sufficiency check, then the payload and the remaining bytes. -/
def parseStep (rest : List Nat) : Except ItemErr (Nat × List Nat × List Nat) :=
  match ParseCompactSize rest true with
  | .error e => .error (.typeErr e)
  | .ok (itemType, remaining) =>
    match ParseCompactSize remaining true with
    | .error e2 => .error (.lenErr e2)
    | .ok (itemLen, remaining2) =>
      if getExpectedLength itemType > 0 ∧ itemLen ≠ getExpectedLength itemType then
        .error (.wrongLength itemType)
      else if remaining2.length < itemLen then .error (.insufficient itemType)
      else .ok (itemType, remaining2.take itemLen, remaining2.drop itemLen)

theorem parseStep_consumes {rest rest2 item : List Nat} {itemType : Nat}
    (h : parseStep rest = .ok (itemType, item, rest2)) :
    rest2.length < rest.length := by
  unfold parseStep at h
  split at h
  · exact absurd h (by simp)
  · rename_i t remaining h1
    split at h
    · exact absurd h (by simp)
    · rename_i len remaining2 h2
      split at h
      · exact absurd h (by simp)
      · split at h
        · exact absurd h (by simp)
        · have hrest2 : rest2 = remaining2.drop len := by
            have := h
            simp only [Except.ok.injEq, Prod.mk.injEq] at this
            exact this.2.2.symm
          have l1 := parse_consumes h1
          have l2 := parse_consumes h2
          have hlen2 : rest2.length = (remaining2.drop len).length := by rw [hrest2]
          have hd : (remaining2.drop len).length ≤ remaining2.length := by
            simp [List.length_drop]
          omega

/-- The `for len(rest) > 0` loop of `DecodeUnified`: duplicate check,
insertion into the receivers map (kept as an association list in insertion
order), and the ordering check against the previous typecode. -/
def parseItems (rest : List Nat) (receivers : List (Nat × List Nat)) (prevType : Nat) :
    Except ItemErr (List (Nat × List Nat)) :=
  if rest.length = 0 then .ok receivers
  else
    match h : parseStep rest with
    | .error e => .error e
    | .ok (itemType, item, rest2) =>
      if (receivers.lookup itemType).isSome then
        .error (.duplicate (getItemName itemType))
      else if prevType ≠ NoPreviousItem ∧ itemType ≤ prevType then
        .error .outOfOrder
      else parseItems rest2 (receivers ++ [(itemType, item)]) itemType
termination_by rest.length
decreasing_by exact parseStep_consumes h

/-- The bucketing pass of `DecodeUnified` (lines 262-281): each receiver
goes to its known field or into the `Unknown` map. -/
def bucket (receivers : List (Nat × List Nat)) : UnifiedAddress :=
  receivers.foldl
    (fun acc p =>
      if p.1 = P2PKHItem then { acc with P2pkh := some p.2 }
      else if p.1 = P2SHItem then { acc with P2sh := some p.2 }
      else if p.1 = SaplingItem then { acc with Sapling := some p.2 }
      else if p.1 = OrchardItem then { acc with Orchard := some p.2 }
      else { acc with Unknown := acc.Unknown ++ [p] })
    ⟨none, none, none, none, []⟩

/-- Embedding of `DecodeUnified` from the byte buffer returned by the
external f4jumble inverse onward: the padding check on the trailing 16
bytes, the item loop, and the bucketing pass. -/
def DecodeUnifiedBody (decoded : List Nat) (expectedHrp : List Nat) :
    Except DecErr UnifiedAddress :=
  if decoded.drop (decoded.length - 16) ≠ padding expectedHrp then .error .padErr
  else
    match parseItems (decoded.take (decoded.length - 16)) [] NoPreviousItem with
    | .error e => .error (.item e)
    | .ok receivers => .ok (bucket receivers)

/-! ## Address dispatcher (zcashaddress package)

The dispatcher calls three external collaborators: `base58.CheckDecode`,
`bech32.DecodeGeneric` (with a follow-up `bech32.ConvertBits` call), and
`unifiedaddress.DecodeUnified` (whose outer text layers are themselves
external).  Their results are passed to the embedded dispatcher as
parameters, so every theorem below holds for every possible behaviour of
those collaborators. -/

/-- Embedding of the `ZcashAddress` struct. -/
structure ZcashAddress where
  P2pkh : Option (List Nat)
  P2sh : Option (List Nat)
  Sapling : Option (List Nat)
  Unified : Option UnifiedAddress
  Tex : Option (List Nat)
deriving DecidableEq, Repr

/-- Embedding of the `Network` struct; the human-readable strings are kept
as byte lists. -/
structure Network where
  p2pkhLead : Nat × Nat
  p2shLead : Nat × Nat
  texHRP : List Nat
  saplingHRP : List Nat
  unifiedHRP : List Nat
  unifiedR1HRP : List Nat
deriving DecidableEq, Repr

/-- Mainnet constants ("tex", "zs", "u", "ur" as bytes). -/
def Mainnet : Network :=
  ⟨(0x1c, 0xb8), (0x1c, 0xbd), [116, 101, 120], [122, 115], [117], [117, 114]⟩

/-- Testnet constants ("textest", "ztestsapling", "utest", "urtest"). -/
def Testnet : Network :=
  ⟨(0x1D, 0x25), (0x1c, 0xba),
   [116, 101, 120, 116, 101, 115, 116],
   [122, 116, 101, 115, 116, 115, 97, 112, 108, 105, 110, 103],
   [117, 116, 101, 115, 116], [117, 114, 116, 101, 115, 116]⟩

/-- Regtest constants ("texregtest", "zregtestsapling", "uregtest",
"urregtest"). -/
def Regtest : Network :=
  ⟨(0x1c, 0x25), (0x1c, 0xba),
   [116, 101, 120, 114, 101, 103, 116, 101, 115, 116],
   [122, 114, 101, 103, 116, 101, 115, 116, 115, 97, 112, 108, 105, 110, 103],
   [117, 114, 101, 103, 116, 101, 115, 116],
   [117, 114, 114, 101, 103, 116, 101, 115, 116]⟩

/-- Version tags returned by the external bech32 decoder. -/
inductive BechVer where
  | v0
  | m
  | unknownVer
deriving DecidableEq, Repr

/-- Errors returned by `DecodeAddress`: the two length errors, a
propagated `ConvertBits` failure, the unified-revision-1 rejection, and
the final `errors.Join` of the three decode attempts. -/
inductive AddrErr where
  | texLength
  | saplingLength
  | convertFail
  | unifiedR1
  | joined
deriving DecidableEq, Repr

/-- The zero value of `ZcashAddress` (Go's named return before any field
is assigned). -/
def emptyZcash : ZcashAddress := ⟨none, none, none, none, none⟩

/-- The final unified-address attempt of `DecodeAddress` (lines 252-260):
on success the `Unified` field is set; otherwise the zero struct and the
joined error are returned. -/
def tryUnified (ua : Except DecErr UnifiedAddress) : ZcashAddress × Option AddrErr :=
  match ua with
  | .ok u => ({ emptyZcash with Unified := some u }, none)
  | .error _ => (emptyZcash, some .joined)

/-- The bech32 section of `DecodeAddress` (lines 213-250): the tex branch
and the unified-revision-1 rejection under the bech32m version tag, the
sapling branch under the bech32 version tag, and in all remaining cases
the fall-through to the unified-address attempt.  `conv` is the result of
the external `bech32.ConvertBits(data, 5, 8, true)` call. -/
def tryBech32 (b32 : Option (List Nat × List Nat × BechVer)) (conv : Option (List Nat))
    (ua : Except DecErr UnifiedAddress) (network : Network) :
    ZcashAddress × Option AddrErr :=
  match b32 with
  | some (hrp, _data, ver) =>
    match ver with
    | .m =>
      if hrp = network.texHRP then
        match conv with
        | some c =>
          if c.length = 20 then ({ emptyZcash with Tex := some c }, none)
          else (emptyZcash, some .texLength)
        | none => (emptyZcash, some .convertFail)
      else if hrp = network.unifiedR1HRP then (emptyZcash, some .unifiedR1)
      else tryUnified ua
    | .v0 =>
      if hrp = network.saplingHRP then
        match conv with
        | some c =>
          if c.length = 43 then ({ emptyZcash with Sapling := some c }, none)
          else (emptyZcash, some .saplingLength)
        | none => (emptyZcash, some .convertFail)
      else tryUnified ua
    | .unknownVer => tryUnified ua
  | none => tryUnified ua

/-- Embedding of `DecodeAddress`, parameterized by the results of the
external decoders: `b58` is `base58.CheckDecode` as
`some (version, decoded)` on success, `b32` is `bech32.DecodeGeneric` as
`some (hrp, data, version)` on success, `conv` is `bech32.ConvertBits`,
and `ua` is `unifiedaddress.DecodeUnified`.  (Go indexes `decoded[0]`,
which presumes a non-empty payload and would panic otherwise; the `head?`
comparison renders the guard false in that case.) -/
def DecodeAddress (b58 : Option (Nat × List Nat))
    (b32 : Option (List Nat × List Nat × BechVer)) (conv : Option (List Nat))
    (ua : Except DecErr UnifiedAddress) (network : Network) :
    ZcashAddress × Option AddrErr :=
  match b58 with
  | some (ver, decoded) =>
    if ver = network.p2pkhLead.1 ∧ decoded.head? = some network.p2pkhLead.2 ∧
        decoded.length = 21 then
      ({ emptyZcash with P2pkh := some (decoded.drop 1) }, none)
    else if ver = network.p2shLead.1 ∧ decoded.head? = some network.p2shLead.2 ∧
        decoded.length = 21 then
      ({ emptyZcash with P2sh := some (decoded.drop 1) }, none)
    else tryBech32 b32 conv ua network
  | none => tryBech32 b32 conv ua network

/-- Embedding of the convenience accessor `DecodeP2pkh`. -/
def DecodeP2pkh (b58 : Option (Nat × List Nat))
    (b32 : Option (List Nat × List Nat × BechVer)) (conv : Option (List Nat))
    (ua : Except DecErr UnifiedAddress) (network : Network) (allowTex : Bool) :
    Option (List Nat) × Option AddrErr :=
  match DecodeAddress b58 b32 conv ua network with
  | (decoded, err) =>
    match err with
    | some e => (none, some e)
    | none =>
      if decoded.P2pkh.isSome then (decoded.P2pkh, none)
      else
        match decoded.Unified with
        | some u => (u.P2pkh, none)
        | none =>
          if decoded.Tex.isSome ∧ allowTex = true then (decoded.Tex, none)
          else (none, none)

/-- Embedding of the convenience accessor `DecodeP2sh`. -/
def DecodeP2sh (b58 : Option (Nat × List Nat))
    (b32 : Option (List Nat × List Nat × BechVer)) (conv : Option (List Nat))
    (ua : Except DecErr UnifiedAddress) (network : Network) :
    Option (List Nat) × Option AddrErr :=
  match DecodeAddress b58 b32 conv ua network with
  | (decoded, err) =>
    match err with
    | some e => (none, some e)
    | none =>
      if decoded.P2sh.isSome then (decoded.P2sh, none)
      else
        match decoded.Unified with
        | some u => (u.P2sh, none)
        | none => (none, none)

/-- Embedding of the convenience accessor `DecodeSapling`. -/
def DecodeSapling (b58 : Option (Nat × List Nat))
    (b32 : Option (List Nat × List Nat × BechVer)) (conv : Option (List Nat))
    (ua : Except DecErr UnifiedAddress) (network : Network) :
    Option (List Nat) × Option AddrErr :=
  match DecodeAddress b58 b32 conv ua network with
  | (decoded, err) =>
    match err with
    | some e => (none, some e)
    | none =>
      if decoded.Sapling.isSome then (decoded.Sapling, none)
      else
        match decoded.Unified with
        | some u => (u.Sapling, none)
        | none => (none, none)

/-- Embedding of the convenience accessor `DecodeOrchard`. -/
def DecodeOrchard (b58 : Option (Nat × List Nat))
    (b32 : Option (List Nat × List Nat × BechVer)) (conv : Option (List Nat))
    (ua : Except DecErr UnifiedAddress) (network : Network) :
    Option (List Nat) × Option AddrErr :=
  match DecodeAddress b58 b32 conv ua network with
  | (decoded, err) =>
    match err with
    | some e => (none, some e)
    | none =>
      match decoded.Unified with
      | some u => (u.Orchard, none)
      | none => (none, none)

/-- First-defined choice between two optional receivers. -/
def firstSome (a b : Option (List Nat)) : Option (List Nat) :=
  match a with
  | some x => some x
  | none => b

/-- The transparent-pubkey-hash receiver of a decoded address: found
directly, inside a unified address, or (when allowed) as a TEX payload. -/
def p2pkhReceiver (d : ZcashAddress) (allowTex : Bool) : Option (List Nat) :=
  firstSome d.P2pkh
    (firstSome (d.Unified.bind fun u => u.P2pkh) (if allowTex then d.Tex else none))

/-- The transparent-script-hash receiver of a decoded address. -/
def p2shReceiver (d : ZcashAddress) : Option (List Nat) :=
  firstSome d.P2sh (d.Unified.bind fun u => u.P2sh)

/-- The Sapling receiver of a decoded address. -/
def saplingReceiver (d : ZcashAddress) : Option (List Nat) :=
  firstSome d.Sapling (d.Unified.bind fun u => u.Sapling)

/-- The Orchard receiver of a decoded address. -/
def orchardReceiver (d : ZcashAddress) : Option (List Nat) :=
  d.Unified.bind fun u => u.Orchard

/-- At most one of the five fields of a `ZcashAddress` is set. -/
def atMostOneField (d : ZcashAddress) : Prop :=
  (if d.P2pkh.isSome then 1 else 0) + (if d.P2sh.isSome then 1 else 0) +
    (if d.Sapling.isSome then 1 else 0) + (if d.Unified.isSome then 1 else 0) +
    (if d.Tex.isSome then 1 else 0) ≤ 1

instance (d : ZcashAddress) : Decidable (atMostOneField d) := by
  unfold atMostOneField
  infer_instance

/-! ## Claims about the CompactSize codec -/

/-- C4: `WriteCompactSize(n, allow)` produces a single literal byte for
`n < 253`, the marker 0xFD plus a 2-byte little-endian value for
`253 ≤ n ≤ 65535`, the marker 0xFE plus a 4-byte little-endian value for
`65536 ≤ n ≤ 2^32-1`, and the marker 0xFF plus an 8-byte little-endian
value for `n ≥ 2^32`; in particular `WriteCompactSize(300, false)` is
`[0xFD, 0x2C, 0x01]` and `ParseCompactSize([0xFD, 0x2C, 0x01], false)`
returns 300 with an empty remainder. -/
theorem claim_C4 :
    (∀ n allow bs, WriteCompactSize n allow = .ok bs →
      ((n < 253 → bs = [n]) ∧
       (253 ≤ n → n ≤ 65535 → bs = 253 :: toLE 2 n) ∧
       (65536 ≤ n → n ≤ 4294967295 → bs = 254 :: toLE 4 n) ∧
       (4294967296 ≤ n → bs = 255 :: toLE 8 n))) ∧
    (∀ width n, n < 256 ^ width → fromLE (toLE width n) = n) ∧
    WriteCompactSize 300 false = .ok [0xFD, 0x2C, 0x01] ∧
    ParseCompactSize [0xFD, 0x2C, 0x01] false = .ok (300, []) := by
  refine ⟨?_, fun width n h => fromLE_toLE_of_lt h, by rfl, by rfl⟩
  intro n allow bs h
  have hbs : bs = writeCompactSizeRaw n := by
    unfold WriteCompactSize at h
    by_cases hc : allow = false ∧ n > maxCompactSize
    · simp [hc] at h
    · simp [hc] at h
      exact h.symm
  subst hbs
  unfold writeCompactSizeRaw
  refine ⟨fun h1 => by simp [h1], fun h1 h2 => by simp [h1, h2],
    fun h1 h2 => ?_, fun h1 => ?_⟩
  · have : ¬ n < 253 := by omega
    have h3 : ¬ n ≤ 65535 := by omega
    simp [this, h3, h2]
  · have : ¬ n < 253 := by omega
    have h3 : ¬ n ≤ 65535 := by omega
    have h4 : ¬ n ≤ 4294967295 := by omega
    simp [this, h3, h4]

theorem claim_C4_witness :
    ([0xFD, 0x2C, 0x01] : List Nat) = 253 :: toLE 2 300 ∧
    fromLE (toLE 2 300) = 300 :=
  ⟨(claim_C4.1 300 false [0xFD, 0x2C, 0x01] (by rfl)).2.1 (by norm_num) (by norm_num),
   claim_C4.2.1 2 300 (by norm_num)⟩

/-- C5: `WriteCompactSize` fails with the range error exactly when the
extended range is not allowed and `n` exceeds the ceiling 33554432, and
`ParseCompactSize` fails with the range error exactly when the marker-byte
read succeeds, the extended range is not allowed, and the decoded value
exceeds the same ceiling. -/
theorem claim_C5 :
    maxCompactSize = 33554432 ∧
    (∀ n allow, WriteCompactSize n allow = .error .range ↔
      (allow = false ∧ 33554432 < n)) ∧
    (∀ l allow, ParseCompactSize l allow = .error .range ↔
      (∃ n r, readRawCompactSize l = some (n, r) ∧ allow = false ∧ 33554432 < n)) := by
  refine ⟨by rfl, fun n allow => ⟨?_, ?_⟩, fun l allow => ⟨?_, ?_⟩⟩
  · intro hw
    by_cases hc : allow = false ∧ n > maxCompactSize
    · exact ⟨hc.1, hc.2⟩
    · unfold WriteCompactSize at hw
      rw [if_neg hc] at hw
      exact absurd hw (by simp)
  · rintro ⟨h1, h2⟩
    have hc : allow = false ∧ n > maxCompactSize := ⟨h1, h2⟩
    unfold WriteCompactSize
    rw [if_pos hc]
  · intro hp
    unfold ParseCompactSize at hp
    split at hp
    · exact absurd hp (by simp)
    · rename_i n r hr
      by_cases hc : allow = false ∧ n > maxCompactSize
      · exact ⟨n, r, hr, hc.1, hc.2⟩
      · rw [if_neg hc] at hp
        exact absurd hp (by simp)
  · rintro ⟨n, r, hr, h1, h2⟩
    have hc : allow = false ∧ n > maxCompactSize := ⟨h1, h2⟩
    simp [ParseCompactSize, hr, hc]

theorem claim_C5_witness :
    WriteCompactSize 33554433 false = .error .range :=
  (claim_C5.2.1 33554433 false).mpr ⟨rfl, by norm_num⟩

/-! ## Helper lemmas about the Unified Address codec -/

theorem writeRaw_length_pos (n : Nat) : 0 < (writeCompactSizeRaw n).length := by
  unfold writeCompactSizeRaw
  split
  · simp
  · split
    · simp
    · split <;> simp

theorem parseItems_step_error {rest : List Nat} {receivers : List (Nat × List Nat)}
    {prev : Nat} {e : ItemErr} (h0 : rest.length ≠ 0) (h : parseStep rest = .error e) :
    parseItems rest receivers prev = .error e := by
  rw [parseItems, if_neg h0]
  split
  · rename_i e2 heq
    rw [h] at heq
    injection heq with h2
    rw [← h2]
  · rename_i t item2 rest3 heq
    rw [h] at heq
    simp at heq

theorem parseItems_step_ok {rest rest2 item : List Nat} {receivers : List (Nat × List Nat)}
    {prev itemType : Nat} (h0 : rest.length ≠ 0)
    (h : parseStep rest = .ok (itemType, item, rest2)) :
    parseItems rest receivers prev =
      if (receivers.lookup itemType).isSome then
        .error (.duplicate (getItemName itemType))
      else if prev ≠ NoPreviousItem ∧ itemType ≤ prev then
        .error .outOfOrder
      else parseItems rest2 (receivers ++ [(itemType, item)]) itemType := by
  rw [parseItems, if_neg h0]
  split
  · rename_i e2 heq
    rw [h] at heq
    simp at heq
  · rename_i t item2 rest3 heq
    rw [h] at heq
    simp only [Except.ok.injEq, Prod.mk.injEq] at heq
    obtain ⟨h1, h2, h3⟩ := heq
    subst h1
    subst h2
    subst h3
    rfl

/-- Parsing a single well-formed TLV item: typecode, declared length, and
the length check outcome. -/
theorem parseStep_wrongLength (t L : Nat) (payload : List Nat)
    (ht : t < 18446744073709551616) (hL : L < 18446744073709551616)
    (hexp : getExpectedLength t > 0) (hne : L ≠ getExpectedLength t) :
    parseStep (writeCompactSizeRaw t ++ writeCompactSizeRaw L ++ payload)
      = .error (.wrongLength t) := by
  unfold parseStep
  rw [List.append_assoc]
  simp [parse_writeRaw t ht, parse_writeRaw L hL, hexp, hne]

theorem parseStep_ok (t : Nat) (payload extra : List Nat)
    (ht : t < 18446744073709551616) (hlen : payload.length < 18446744073709551616)
    (hexp : getExpectedLength t = 0 ∨ payload.length = getExpectedLength t) :
    parseStep (writeCompactSizeRaw t ++ writeCompactSizeRaw payload.length ++ (payload ++ extra))
      = .ok (t, payload, extra) := by
  unfold parseStep
  rw [List.append_assoc]
  have hcond : ¬ (getExpectedLength t > 0 ∧ payload.length ≠ getExpectedLength t) := by
    rcases hexp with h | h
    · simp [h]
    · simp [h]
  have hge : ¬ ((payload ++ extra).length < payload.length) := by
    simp
  have htake : (payload ++ extra).take payload.length = payload := List.take_left payload extra
  have hdrop : (payload ++ extra).drop payload.length = extra := List.drop_left payload extra
  simp [parse_writeRaw t ht, parse_writeRaw payload.length hlen, hcond, hge, htake, hdrop]

/-! ## Claims about item decoding, padding and zero-length unknown items -/

/-- C6: decoding an item with a known typecode (0x00, 0x01, 0x02, 0x03)
fails with the length error whenever the declared payload length differs
from that typecode's fixed expected length (20, 20, 43, 43 bytes
respectively), regardless of the surrounding parser state; items with any
other typecode pass the length check and are accepted with a payload of
any length. -/
theorem claim_C6 :
    getExpectedLength P2PKHItem = 20 ∧ getExpectedLength P2SHItem = 20 ∧
    getExpectedLength SaplingItem = 43 ∧ getExpectedLength OrchardItem = 43 ∧
    (∀ t, 4 ≤ t → getExpectedLength t = 0) ∧
    (∀ t L (payload : List Nat) receivers prev,
      t < 18446744073709551616 → L < 18446744073709551616 →
      t ≤ 3 → L ≠ getExpectedLength t →
      parseItems (writeCompactSizeRaw t ++ writeCompactSizeRaw L ++ payload) receivers prev
        = .error (.wrongLength t)) ∧
    (∀ t (payload : List Nat), 4 ≤ t → t < 18446744073709551616 →
      payload.length < 18446744073709551616 →
      parseItems (writeCompactSizeRaw t ++ writeCompactSizeRaw payload.length ++ payload)
          [] NoPreviousItem
        = .ok [(t, payload)]) := by
  have hunk : ∀ t, 4 ≤ t → getExpectedLength t = 0 := by
    intro t h4
    unfold getExpectedLength P2PKHItem P2SHItem SaplingItem OrchardItem
    have h0 : t ≠ 0 := by omega
    have h1 : t ≠ 1 := by omega
    have h2 : t ≠ 2 := by omega
    have h3 : t ≠ 3 := by omega
    simp [h0, h1, h2, h3]
  refine ⟨rfl, rfl, rfl, rfl, hunk, ?_, ?_⟩
  · intro t L payload receivers prev ht hL hknown hne
    have h0 : (writeCompactSizeRaw t ++ writeCompactSizeRaw L ++ payload).length ≠ 0 := by
      have hp := writeRaw_length_pos t
      simp only [List.length_append]
      omega
    have hexp : getExpectedLength t > 0 := by
      interval_cases t <;> simp [getExpectedLength, P2PKHItem, P2SHItem, SaplingItem, OrchardItem]
    exact parseItems_step_error h0 (parseStep_wrongLength t L payload ht hL hexp hne)
  · intro t payload h4 ht hlen
    have h0 : (writeCompactSizeRaw t ++ writeCompactSizeRaw payload.length ++ payload).length ≠ 0 := by
      have hp := writeRaw_length_pos t
      simp only [List.length_append]
      omega
    have hstep : parseStep (writeCompactSizeRaw t ++ writeCompactSizeRaw payload.length ++ payload)
        = .ok (t, payload, []) := by
      have := parseStep_ok t payload [] ht hlen (Or.inl (hunk t h4))
      simpa using this
    rw [parseItems_step_ok h0 hstep]
    simp [NoPreviousItem, parseItems]

theorem claim_C6_witness :
    parseItems (writeCompactSizeRaw 0 ++ writeCompactSizeRaw 5 ++ [1, 2, 3, 4, 5]) [] NoPreviousItem
        = .error (.wrongLength 0) ∧
    parseItems (writeCompactSizeRaw 7 ++ writeCompactSizeRaw 2 ++ [8, 9]) [] NoPreviousItem
        = .ok [(7, [8, 9])] := by
  constructor
  · exact claim_C6.2.2.2.2.2.1 0 5 [1, 2, 3, 4, 5] [] NoPreviousItem (by norm_num) (by norm_num)
      (by norm_num) (by simp [getExpectedLength, P2PKHItem])
  · have := claim_C6.2.2.2.2.2.2 7 [8, 9] (by norm_num) (by norm_num) (by norm_num)
    simpa using this

/-- C7: for every buffer reaching the padding check, decoding fails with
the padding error exactly when the 16-byte suffix differs from the
expected human-readable prefix bytes zero-padded on the right to 16 bytes,
and a successful encode appends exactly that 16-byte derivation. -/
theorem claim_C7 (decoded hrp : List Nat) (hd : 16 ≤ decoded.length)
    (hh : hrp.length ≤ 16) :
    (decoded.drop (decoded.length - 16)).length = 16 ∧
    (padding hrp).length = 16 ∧
    (DecodeUnifiedBody decoded hrp = .error .padErr ↔
      decoded.drop (decoded.length - 16) ≠ hrp ++ List.replicate (16 - hrp.length) 0) ∧
    (∀ addr bs, EncodeUnifiedBody addr hrp = .ok bs →
      bs.drop (bs.length - 16) = hrp ++ List.replicate (16 - hrp.length) 0) := by
  have hpadlen : (padding hrp).length = 16 := by
    simp [padding]
    omega
  have hpad : padding hrp = hrp ++ List.replicate (16 - hrp.length) 0 := rfl
  have hsuf : (decoded.drop (decoded.length - 16)).length = 16 := by
    simp only [List.length_drop]
    omega
  refine ⟨hsuf, hpadlen, ⟨?_, ?_⟩, ?_⟩
  · intro h
    unfold DecodeUnifiedBody at h
    by_cases hc : decoded.drop (decoded.length - 16) ≠ padding hrp
    · rw [← hpad]
      exact hc
    · rw [if_neg hc] at h
      split at h <;> exact absurd h (by simp)
  · intro h
    have hc : decoded.drop (decoded.length - 16) ≠ padding hrp := by
      rw [hpad]
      exact h
    unfold DecodeUnifiedBody
    rw [if_pos hc]
  · intro addr bs h
    unfold EncodeUnifiedBody at h
    split at h
    · exact absurd h (by simp)
    · split at h
      · exact absurd h (by simp)
      · rename_i body hbody
        have hbs : bs = body ++ padding hrp := by
          simpa using h.symm
        subst hbs
        have hlen : (body ++ padding hrp).length - 16 = body.length := by
          simp [hpadlen]
        rw [hlen]
        have := List.drop_left body (padding hrp)
        rw [this]
        rfl

theorem claim_C7_witness :
    ((List.replicate 16 0 : List Nat).drop ((List.replicate 16 0 : List Nat).length - 16)).length
      = 16 ∧
    (padding [117]).length = 16 ∧
    (DecodeUnifiedBody (List.replicate 16 0) [117] = .error .padErr ↔
      (List.replicate 16 0).drop ((List.replicate 16 0).length - 16)
        ≠ [117] ++ List.replicate (16 - ([117] : List Nat).length) 0) ∧
    (∀ addr bs, EncodeUnifiedBody addr [117] = .ok bs →
      bs.drop (bs.length - 16) = [117] ++ List.replicate (16 - ([117] : List Nat).length) 0) :=
  claim_C7 (List.replicate 16 0) [117] (by simp) (by simp)

/-- Zero-length unknown payloads are skipped by the encoding loop. -/
theorem unknownEnc_filter (l : List (Nat × List Nat)) :
    unknownEnc (l.filter fun p => !p.2.isEmpty) = unknownEnc l := by
  induction l with
  | nil => rfl
  | cons p rest ih =>
    by_cases h : p.2.isEmpty
    · have hlen : ¬ p.2.length > 0 := by
        cases hp : p.2
        · simp
        · rw [hp] at h; simp at h
      simp [List.filter, h, unknownEnc, hlen, ih]
    · have hlen : p.2.length > 0 := by
        cases hp : p.2
        · rw [hp] at h; simp at h
        · simp
      simp [List.filter, h, unknownEnc, hlen, ih]

/-- C9: the encoder silently omits every `Unknown` entry whose payload is
empty, so the encoding equals that of the same address with all
zero-length unknown entries removed. -/
theorem claim_C9 (addr : UnifiedAddress) (hrp : List Nat) :
    EncodeUnifiedBody addr hrp =
      EncodeUnifiedBody
        { addr with Unknown := addr.Unknown.filter fun p => !p.2.isEmpty } hrp := by
  unfold EncodeUnifiedBody
  rw [unknownEnc_filter]

/-! ## Divergences between the Unified Address codec and its specification

The `Unknown` field of a `UnifiedAddress` is a Go map whose `range`
iteration order is unspecified; the association-list order of the model's
`Unknown` field represents one possible iteration order.  The bodies below
exhibit iteration orders under which the encoder violates the strictly
ascending typecode requirement, and a typecode equal to the
`NoPreviousItem` sentinel under which the decoder skips the ordering
check. -/

/-- C1: with `Unknown` holding the two entries `4 ↦ [1]` and `5 ↦ [2]`
visited in the iteration order 5-then-4 (legitimate for a Go map), the
encoder succeeds but its result fails to decode: the round trip returns
the out-of-order error rather than the original address. -/
theorem claim_C1_roundtrip_violation :
    EncodeUnifiedBody ⟨none, none, none, none, [(5, [2]), (4, [1])]⟩ [117]
      = .ok [5, 1, 2, 4, 1, 1, 117, 0, 0, 0, 0, 0, 0, 0, 0, 0, 0, 0, 0, 0, 0, 0] ∧
    DecodeUnifiedBody [5, 1, 2, 4, 1, 1, 117, 0, 0, 0, 0, 0, 0, 0, 0, 0, 0, 0, 0, 0, 0, 0] [117]
      = .error (.item .outOfOrder) := by
  constructor
  · simp [EncodeUnifiedBody, optEnc, unknownEnc, tlv_eq, padding, writeCompactSizeRaw,
      P2PKHItem, P2SHItem, SaplingItem, OrchardItem, bind, Except.bind, pure, Except.pure,
      List.replicate]
  · simp only [DecodeUnifiedBody, padding, List.replicate]
    simp [parseItems, parseStep, ParseCompactSize, readRawCompactSize, getExpectedLength,
      P2PKHItem, P2SHItem, SaplingItem, OrchardItem, NoPreviousItem, maxCompactSize,
      getItemName]

/-- C2: the encoder emits unknown items in the map-iteration order it is
handed, not sorted: under the iteration order 5-then-4 the emitted item
sequence has typecode 5 before typecode 4, and the opposite iteration
order of the very same map produces different bytes, so the encoding is
neither ascending nor deterministic in the map. -/
theorem claim_C2_unknown_items_unsorted :
    EncodeUnifiedBody ⟨none, none, none, none, [(5, [2]), (4, [1])]⟩ [117]
      = .ok ((writeCompactSizeRaw 5 ++ writeCompactSizeRaw 1 ++ [2])
          ++ ((writeCompactSizeRaw 4 ++ writeCompactSizeRaw 1 ++ [1]) ++ padding [117])) ∧
    EncodeUnifiedBody ⟨none, none, none, none, [(4, [1]), (5, [2])]⟩ [117]
      ≠ EncodeUnifiedBody ⟨none, none, none, none, [(5, [2]), (4, [1])]⟩ [117] := by
  constructor
  · simp [EncodeUnifiedBody, optEnc, unknownEnc, tlv_eq, bind, Except.bind, pure, Except.pure]
  · simp [EncodeUnifiedBody, optEnc, unknownEnc, tlv_eq, padding, writeCompactSizeRaw,
      bind, Except.bind, pure, Except.pure, List.replicate]

/-- C3: an item whose typecode equals the sentinel `NoPreviousItem`
(0xffffffff) re-arms the no-predecessor state, so the decoder accepts a
following item with a smaller typecode instead of failing with the
out-of-order error: the body holding typecode 0xffffffff then typecode 5
decodes successfully. -/
theorem claim_C3_sentinel_disables_order_check :
    NoPreviousItem = 4294967295 ∧
    (5 : Nat) ≤ 4294967295 ∧
    DecodeUnifiedBody
        ([254, 255, 255, 255, 255, 1, 9] ++ [5, 1, 2] ++ padding [117]) [117]
      = .ok ⟨none, none, none, none, [(4294967295, [9]), (5, [2])]⟩ := by
  refine ⟨rfl, by norm_num, ?_⟩
  simp only [DecodeUnifiedBody, padding, List.replicate]
  simp [parseItems, parseStep, ParseCompactSize, readRawCompactSize, getExpectedLength,
    P2PKHItem, P2SHItem, SaplingItem, OrchardItem, NoPreviousItem, maxCompactSize,
    getItemName, fromLE, bucket]

theorem tryUnified_cases (ua : Except DecErr UnifiedAddress) :
    tryUnified ua = (emptyZcash, some .joined) ∨
    (∃ u, tryUnified ua = ({ emptyZcash with Unified := some u }, none)) := by
  cases ua with
  | error e => exact Or.inl rfl
  | ok u => exact Or.inr ⟨u, rfl⟩

theorem tryBech32_cases (b32 : Option (List Nat × List Nat × BechVer))
    (conv : Option (List Nat)) (ua : Except DecErr UnifiedAddress) (network : Network) :
    (∃ e, tryBech32 b32 conv ua network = (emptyZcash, some e)) ∨
    (∃ x, tryBech32 b32 conv ua network = ({ emptyZcash with Tex := some x }, none)) ∨
    (∃ x, tryBech32 b32 conv ua network = ({ emptyZcash with Sapling := some x }, none)) ∨
    (∃ u, tryBech32 b32 conv ua network = ({ emptyZcash with Unified := some u }, none)) := by
  have hua := tryUnified_cases ua
  match b32 with
  | none =>
    rcases hua with h | ⟨u, h⟩
    · exact Or.inl ⟨.joined, by simp [tryBech32, h]⟩
    · exact Or.inr (Or.inr (Or.inr ⟨u, by simp [tryBech32, h]⟩))
  | some (hrp, data, ver) =>
    match ver with
    | .m =>
      by_cases h1 : hrp = network.texHRP
      · match conv with
        | some c =>
          by_cases h2 : c.length = 20
          · exact Or.inr (Or.inl ⟨c, by simp [tryBech32, h1, h2]⟩)
          · exact Or.inl ⟨.texLength, by simp [tryBech32, h1, h2]⟩
        | none => exact Or.inl ⟨.convertFail, by simp [tryBech32, h1]⟩
      · by_cases h2 : hrp = network.unifiedR1HRP
        · refine Or.inl ⟨.unifiedR1, ?_⟩
          simp [tryBech32, h1, h2]
          intro hcontra
          exact absurd (h2.trans hcontra) h1
        · rcases hua with h | ⟨u, h⟩
          · exact Or.inl ⟨.joined, by simp [tryBech32, h1, h2, h]⟩
          · exact Or.inr (Or.inr (Or.inr ⟨u, by simp [tryBech32, h1, h2, h]⟩))
    | .v0 =>
      by_cases h1 : hrp = network.saplingHRP
      · match conv with
        | some c =>
          by_cases h2 : c.length = 43
          · exact Or.inr (Or.inr (Or.inl ⟨c, by simp [tryBech32, h1, h2]⟩))
          · exact Or.inl ⟨.saplingLength, by simp [tryBech32, h1, h2]⟩
        | none => exact Or.inl ⟨.convertFail, by simp [tryBech32, h1]⟩
      · rcases hua with h | ⟨u, h⟩
        · exact Or.inl ⟨.joined, by simp [tryBech32, h1, h]⟩
        · exact Or.inr (Or.inr (Or.inr ⟨u, by simp [tryBech32, h1, h]⟩))
    | .unknownVer =>
      rcases hua with h | ⟨u, h⟩
      · exact Or.inl ⟨.joined, by simp [tryBech32, h]⟩
      · exact Or.inr (Or.inr (Or.inr ⟨u, by simp [tryBech32, h]⟩))

/-- Every outcome of the dispatcher: an error paired with the zero struct,
or a success with exactly one field set. -/
theorem decodeAddress_cases (b58 : Option (Nat × List Nat))
    (b32 : Option (List Nat × List Nat × BechVer)) (conv : Option (List Nat))
    (ua : Except DecErr UnifiedAddress) (network : Network) :
    (∃ e, DecodeAddress b58 b32 conv ua network = (emptyZcash, some e)) ∨
    (∃ x, DecodeAddress b58 b32 conv ua network
      = ({ emptyZcash with P2pkh := some x }, none)) ∨
    (∃ x, DecodeAddress b58 b32 conv ua network
      = ({ emptyZcash with P2sh := some x }, none)) ∨
    (∃ x, DecodeAddress b58 b32 conv ua network
      = ({ emptyZcash with Sapling := some x }, none)) ∨
    (∃ x, DecodeAddress b58 b32 conv ua network
      = ({ emptyZcash with Tex := some x }, none)) ∨
    (∃ u, DecodeAddress b58 b32 conv ua network
      = ({ emptyZcash with Unified := some u }, none)) := by
  have hb := tryBech32_cases b32 conv ua network
  match b58 with
  | none =>
    rcases hb with ⟨e, h⟩ | ⟨x, h⟩ | ⟨x, h⟩ | ⟨u, h⟩
    · exact Or.inl ⟨e, by simp [DecodeAddress, h]⟩
    · exact Or.inr (Or.inr (Or.inr (Or.inr (Or.inl ⟨x, by simp [DecodeAddress, h]⟩))))
    · exact Or.inr (Or.inr (Or.inr (Or.inl ⟨x, by simp [DecodeAddress, h]⟩)))
    · exact Or.inr (Or.inr (Or.inr (Or.inr (Or.inr ⟨u, by simp [DecodeAddress, h]⟩))))
  | some (ver, decoded) =>
    by_cases h1 : ver = network.p2pkhLead.1 ∧ decoded.head? = some network.p2pkhLead.2 ∧
        decoded.length = 21
    · exact Or.inr (Or.inl ⟨decoded.drop 1, by simp [DecodeAddress, h1]⟩)
    · by_cases h2 : ver = network.p2shLead.1 ∧ decoded.head? = some network.p2shLead.2 ∧
          decoded.length = 21
      · refine Or.inr (Or.inr (Or.inl ⟨decoded.drop 1, ?_⟩))
        show (if ver = network.p2pkhLead.1 ∧ decoded.head? = some network.p2pkhLead.2 ∧
              decoded.length = 21 then
            ({ emptyZcash with P2pkh := some (decoded.drop 1) }, none)
          else if ver = network.p2shLead.1 ∧ decoded.head? = some network.p2shLead.2 ∧
              decoded.length = 21 then
            ({ emptyZcash with P2sh := some (decoded.drop 1) }, none)
          else tryBech32 b32 conv ua network)
          = ({ emptyZcash with P2sh := some (decoded.drop 1) }, none)
        rw [if_neg h1, if_pos h2]
      · rcases hb with ⟨e, h⟩ | ⟨x, h⟩ | ⟨x, h⟩ | ⟨u, h⟩
        · exact Or.inl ⟨e, by simp [DecodeAddress, h1, h2, h]⟩
        · exact Or.inr (Or.inr (Or.inr (Or.inr (Or.inl ⟨x, by simp [DecodeAddress, h1, h2, h]⟩))))
        · exact Or.inr (Or.inr (Or.inr (Or.inl ⟨x, by simp [DecodeAddress, h1, h2, h]⟩)))
        · exact Or.inr (Or.inr (Or.inr (Or.inr (Or.inr ⟨u, by simp [DecodeAddress, h1, h2, h]⟩))))

theorem firstSome_none (a : Option (List Nat)) : firstSome a none = a := by
  cases a <;> rfl

theorem firstSome_none_left (b : Option (List Nat)) : firstSome none b = b := rfl

/-- C10: for every behaviour of the external decoders, the `ZcashAddress`
returned by `DecodeAddress` has at most one of its five fields set, and on
every error return the struct is the zero value with all five fields
unset. -/
theorem claim_C10 (b58 : Option (Nat × List Nat))
    (b32 : Option (List Nat × List Nat × BechVer)) (conv : Option (List Nat))
    (ua : Except DecErr UnifiedAddress) (network : Network) :
    atMostOneField (DecodeAddress b58 b32 conv ua network).1 ∧
    ((DecodeAddress b58 b32 conv ua network).2.isSome →
      (DecodeAddress b58 b32 conv ua network).1 = emptyZcash) := by
  rcases decodeAddress_cases b58 b32 conv ua network with
    ⟨e, h⟩ | ⟨x, h⟩ | ⟨x, h⟩ | ⟨x, h⟩ | ⟨x, h⟩ | ⟨u, h⟩ <;>
    rw [h] <;> simp [atMostOneField, emptyZcash]

theorem claim_C10_witness :
    atMostOneField (DecodeAddress none none none (Except.error DecErr.padErr) Mainnet).1 ∧
    (DecodeAddress none none none (Except.error DecErr.padErr) Mainnet).1 = emptyZcash :=
  ⟨(claim_C10 none none none (Except.error DecErr.padErr) Mainnet).1,
   (claim_C10 none none none (Except.error DecErr.padErr) Mainnet).2 rfl⟩

/-- C8: each convenience accessor propagates a `DecodeAddress` error
unchanged, and on a successful decode returns, with no error, exactly the
matching receiver found directly or inside the decoded Unified Address
(for the p2pkh accessor also the TEX payload when allowed), or no value at
all when the decoded address lacks that receiver. -/
theorem claim_C8 (b58 : Option (Nat × List Nat))
    (b32 : Option (List Nat × List Nat × BechVer)) (conv : Option (List Nat))
    (ua : Except DecErr UnifiedAddress) (network : Network) (allowTex : Bool) :
    (∀ e, (DecodeAddress b58 b32 conv ua network).2 = some e →
      DecodeP2pkh b58 b32 conv ua network allowTex = (none, some e) ∧
      DecodeP2sh b58 b32 conv ua network = (none, some e) ∧
      DecodeSapling b58 b32 conv ua network = (none, some e) ∧
      DecodeOrchard b58 b32 conv ua network = (none, some e)) ∧
    ((DecodeAddress b58 b32 conv ua network).2 = none →
      DecodeP2pkh b58 b32 conv ua network allowTex
        = (p2pkhReceiver (DecodeAddress b58 b32 conv ua network).1 allowTex, none) ∧
      DecodeP2sh b58 b32 conv ua network
        = (p2shReceiver (DecodeAddress b58 b32 conv ua network).1, none) ∧
      DecodeSapling b58 b32 conv ua network
        = (saplingReceiver (DecodeAddress b58 b32 conv ua network).1, none) ∧
      DecodeOrchard b58 b32 conv ua network
        = (orchardReceiver (DecodeAddress b58 b32 conv ua network).1, none)) := by
  rcases decodeAddress_cases b58 b32 conv ua network with
    ⟨e0, h⟩ | ⟨x, h⟩ | ⟨x, h⟩ | ⟨x, h⟩ | ⟨x, h⟩ | ⟨u, h⟩
  · refine ⟨?_, ?_⟩
    · intro e he
      rw [h] at he
      simp only [Option.some.injEq] at he
      subst he
      exact ⟨by simp [DecodeP2pkh, h], by simp [DecodeP2sh, h],
        by simp [DecodeSapling, h], by simp [DecodeOrchard, h]⟩
    · intro hnone
      rw [h] at hnone
      simp at hnone
  · refine ⟨?_, fun hnone => ?_⟩
    · intro e he
      rw [h] at he
      simp at he
    · exact ⟨by simp [DecodeP2pkh, h, p2pkhReceiver, firstSome, emptyZcash],
        by simp [DecodeP2sh, h, p2shReceiver, firstSome, emptyZcash],
        by simp [DecodeSapling, h, saplingReceiver, firstSome, emptyZcash],
        by simp [DecodeOrchard, h, orchardReceiver, emptyZcash]⟩
  · refine ⟨?_, fun hnone => ?_⟩
    · intro e he
      rw [h] at he
      simp at he
    · exact ⟨by simp [DecodeP2pkh, h, p2pkhReceiver, firstSome, emptyZcash],
        by simp [DecodeP2sh, h, p2shReceiver, firstSome, emptyZcash],
        by simp [DecodeSapling, h, saplingReceiver, firstSome, emptyZcash],
        by simp [DecodeOrchard, h, orchardReceiver, emptyZcash]⟩
  · refine ⟨?_, fun hnone => ?_⟩
    · intro e he
      rw [h] at he
      simp at he
    · exact ⟨by simp [DecodeP2pkh, h, p2pkhReceiver, firstSome, emptyZcash],
        by simp [DecodeP2sh, h, p2shReceiver, firstSome, emptyZcash],
        by simp [DecodeSapling, h, saplingReceiver, firstSome, emptyZcash],
        by simp [DecodeOrchard, h, orchardReceiver, emptyZcash]⟩
  · refine ⟨?_, fun hnone => ?_⟩
    · intro e he
      rw [h] at he
      simp at he
    · cases allowTex <;>
        exact ⟨by simp [DecodeP2pkh, h, p2pkhReceiver, firstSome, emptyZcash],
          by simp [DecodeP2sh, h, p2shReceiver, firstSome, emptyZcash],
          by simp [DecodeSapling, h, saplingReceiver, firstSome, emptyZcash],
          by simp [DecodeOrchard, h, orchardReceiver, emptyZcash]⟩
  · refine ⟨?_, fun hnone => ?_⟩
    · intro e he
      rw [h] at he
      simp at he
    · exact ⟨by simp [DecodeP2pkh, h, p2pkhReceiver, firstSome_none, firstSome_none_left,
          emptyZcash],
        by simp [DecodeP2sh, h, p2shReceiver, firstSome_none, firstSome_none_left, emptyZcash],
        by simp [DecodeSapling, h, saplingReceiver, firstSome_none, firstSome_none_left,
          emptyZcash],
        by simp [DecodeOrchard, h, orchardReceiver, emptyZcash]⟩

theorem claim_C8_witness :
    DecodeP2pkh none none none (Except.error DecErr.padErr) Mainnet true
      = (none, some AddrErr.joined) ∧
    DecodeP2sh none none none (Except.error DecErr.padErr) Mainnet
      = (none, some AddrErr.joined) ∧
    DecodeSapling none none none (Except.error DecErr.padErr) Mainnet
      = (none, some AddrErr.joined) ∧
    DecodeOrchard none none none (Except.error DecErr.padErr) Mainnet
      = (none, some AddrErr.joined) :=
  (claim_C8 none none none (Except.error DecErr.padErr) Mainnet true).1 AddrErr.joined rfl

end ZcashAddr
